import Mathlib

/-!
Verification of the inbound-lead ingestion pipeline of `solid-rotary-phone`.

The development shallowly embeds the two core components:

* `lead-parser.service.ts` — the pure Extractor (`parseLeadFromEmail`,
  `normalizePhone` and the three field regexes), and
* `process-inbound-email.service.ts` — the Ingestion Orchestrator
  (`processInboundEmail`), over an explicit store state modelling the
  `InboundEmail` and `Lead` tables, with the `Lead_email_key` unique index
  from the Prisma migration modelled as a store-level insert that rejects
  duplicate emails.

Strings are modelled as `List Char`.  The JavaScript regexes
`/^Label\s*:\s*(.+)$/im` are embedded by a direct operational model of the
backtracking matcher specialised to this pattern: the engine attempts the
pattern at position 0 and at every position following a `'\n'` (the `m`
flag), the label is compared case-insensitively (the `i` flag), `\s`
matches whitespace including `'\n'` (so a whitespace run may cross line
boundaries), `.` matches any character except `'\n'`, and `$` matches at
the end of the input or before a `'\n'`.  JavaScript whitespace is
abstracted to the ASCII whitespace characters; `'\n'` is the only line
terminator modelled.
-/

namespace LeadIntake

/-- Decidable equality for `Except`, so that runs of the embedded functions
on concrete inputs can be checked by `decide`. -/
instance {ε α : Type} [DecidableEq ε] [DecidableEq α] : DecidableEq (Except ε α) := fun x y =>
  match x, y with
  | .ok a, .ok b =>
    if h : a = b then .isTrue (congrArg Except.ok h)
    else .isFalse (fun hc => h (Except.ok.inj hc))
  | .error a, .error b =>
    if h : a = b then .isTrue (congrArg Except.error h)
    else .isFalse (fun hc => h (Except.error.inj hc))
  | .ok _, .error _ => .isFalse (fun hc => Except.noConfusion hc)
  | .error _, .ok _ => .isFalse (fun hc => Except.noConfusion hc)

/-- ASCII model of the JavaScript regex class `\s` (and of the characters
removed by `String.prototype.trim`). -/
def isWS (c : Char) : Bool :=
  c == ' ' || c == '\t' || c == '\n' || c == '\r' || c == '\x0b' || c == '\x0c'

/-- JavaScript `String.prototype.trim`: drop whitespace from both ends. -/
def trim (l : List Char) : List Char :=
  ((l.dropWhile isWS).reverse.dropWhile isWS).reverse

/-- Case-insensitive literal match of `label` (given in lower case) against a
prefix of the text; on success returns the remaining text.  This is the label
part of `^Label\s*:\s*(.+)$` under the `i` flag. -/
def stripLabelCI : List Char → List Char → Option (List Char)
  | [], rest => some rest
  | _ :: _, [] => none
  | lc :: ls, c :: cs => if c.toLower = lc then stripLabelCI ls cs else none

/-- Matching of `\s*(.+)$` after the colon, with the backtracking of the
greedy `\s*` against `(.+)` made explicit: the whitespace run is consumed
greedily; if that leaves at least one character (necessarily not `'\n'`),
`(.+)` captures up to the end of the line; otherwise the engine backtracks
to the last non-`'\n'` whitespace character, which then forms a one-character
capture. -/
def captureAfterColon (rest : List Char) : Option (List Char) :=
  match rest.dropWhile isWS with
  | c :: cs => some (c :: cs.takeWhile (fun d => d ≠ '\n'))
  | [] =>
    match rest.reverse.dropWhile (fun d => d = '\n') with
    | [] => none
    | c :: _ => some [c]

/-- Attempt of the whole pattern `^label\s*:\s*(.+)$` at one `^` position;
returns capture group 1 on success. -/
def matchAt (label : List Char) (s : List Char) : Option (List Char) :=
  match stripLabelCI label s with
  | none => none
  | some r1 =>
    match r1.dropWhile isWS with
    | ':' :: r2 => captureAfterColon r2
    | _ => none

/-- The multiline scan of `String.prototype.match`: the pattern is attempted
at position 0 and at every position that follows a `'\n'`; the first
successful attempt wins.  `atStart` records whether the current position is
such a `^` position. -/
def scanAux (label : List Char) : Bool → List Char → Option (List Char)
  | _, [] => none
  | atStart, c :: cs =>
    if atStart then
      match matchAt label (c :: cs) with
      | some cap => some cap
      | none => scanAux label (c == '\n') cs
    else
      scanAux label (c == '\n') cs

/-- Model of `body.match(/^label\s*:\s*(.+)$/im)`, group 1. -/
def scan (label : List Char) (body : List Char) : Option (List Char) :=
  scanAux label true body

/-- Closed error taxonomy of `LeadParseError`.  The source has a single
exception class distinguished only by its message; the two constructors
record which of the two message templates was used, and
`LeadParseError.message` reproduces the exact message strings. -/
inductive LeadParseError where
  | missingField (fieldName : String)
  | invalidPhone (raw : List Char)
deriving DecidableEq

/-- Exact message strings built by the source (`Could not extract "<field>"
from email body` and the `normalizePhone` failure message). -/
def LeadParseError.message : LeadParseError → List Char
  | .missingField f => ("Could not extract \x22" ++ f ++ "\x22 from email body").data
  | .invalidPhone raw =>
      "Phone \x22".data ++ raw ++
        ("\x22 could not be normalised to E.164. " ++
          "Expected a 10-digit US number or a number already in E.164 format (+...).").data

/-- Model of `extractField` from the source: first regex match, `MissingField` when
there is no match or the capture trims to the empty string, the trimmed
capture otherwise. -/
def extractField (body : List Char) (label : List Char) (fieldName : String) :
    Except LeadParseError (List Char) :=
  match scan label body with
  | none => .error (.missingField fieldName)
  | some cap =>
    if trim cap = [] then .error (.missingField fieldName) else .ok (trim cap)

/-- Full-string test of `/^\+\d{7,15}$/` (no `m` flag, so `^`/`$` anchor the
whole string). -/
def e164Check (l : List Char) : Bool :=
  match l with
  | '+' :: ds => ds.all Char.isDigit && decide (7 ≤ ds.length) && decide (ds.length ≤ 15)
  | _ => false

/-- Model of `normalizePhone` from the source: E.164 pass-through, else strip
non-digits; 10 digits get `+1` prepended, 11 digits starting with `1` get
`+` prepended, anything else is an `InvalidPhone` failure carrying the raw
input. -/
def normalizePhone (raw : List Char) : Except LeadParseError (List Char) :=
  if e164Check raw then .ok raw
  else if (raw.filter Char.isDigit).length = 10 then
    .ok ('+' :: '1' :: raw.filter Char.isDigit)
  else if (raw.filter Char.isDigit).length = 11 ∧
      (raw.filter Char.isDigit).head? = some '1' then
    .ok ('+' :: raw.filter Char.isDigit)
  else .error (.invalidPhone raw)

/-- Structured result of the Extractor. -/
structure ParsedLead where
  name : List Char
  phone : List Char
  email : List Char
deriving DecidableEq

/-- The three label literals of the version-1 format, lower-cased for the
case-insensitive comparison. -/
def nameLabel : List Char := ['n', 'a', 'm', 'e']

/-- Lower-cased `Phone` label. -/
def phoneLabel : List Char := ['p', 'h', 'o', 'n', 'e']

/-- Lower-cased `Email` label. -/
def emailLabel : List Char := ['e', 'm', 'a', 'i', 'l']

/-- Model of `parseLeadFromEmail` from the source: extract the three fields
in the order Name, Phone, Email, then normalise the phone.  The thrown
`LeadParseError` of the source propagates out of the first failing step,
modelled by explicit error propagation. -/
def parseLeadFromEmail (body : List Char) : Except LeadParseError ParsedLead :=
  match extractField body nameLabel "Name" with
  | .error e => .error e
  | .ok name =>
    match extractField body phoneLabel "Phone" with
    | .error e => .error e
    | .ok rawPhone =>
      match extractField body emailLabel "Email" with
      | .error e => .error e
      | .ok email =>
        match normalizePhone rawPhone with
        | .error e => .error e
        | .ok phone => .ok { name := name, phone := phone, email := email }

/-! ## Store model

The store models the two tables the pipeline touches.  `Lead` carries the
columns of the `Lead` table that the pipeline can write (the `create`
payload plus the schema defaults); `InboundEmail` carries the columns read
and written by the Orchestrator.  The `Lead_email_key` unique index of the
Prisma migration is modelled by `storeInsertLead`, the store-level insert,
which rejects any row whose email is already present. -/

/-- A row of the `Lead` table. -/
structure Lead where
  id : String
  name : List Char
  email : List Char
  phone : List Char
  status : String
  sequenceDay : Nat
deriving DecidableEq

/-- A row of the `InboundEmail` table. -/
structure InboundEmail where
  id : String
  subject : String
  rawText : List Char
  processed : Bool
  error : Option (List Char)
deriving DecidableEq

/-- The durable state: both tables. -/
structure Store where
  inboundEmails : List InboundEmail
  leads : List Lead
deriving DecidableEq

/-- Model of `prisma.inboundEmail.findUnique({ where: { id } })`. -/
def findInbound (s : Store) (id : String) : Option InboundEmail :=
  s.inboundEmails.find? (fun e => e.id == id)

/-- Lookup of a lead by its natural key, via the unique index on `email`. -/
def findLeadByEmail (s : Store) (email : List Char) : Option Lead :=
  s.leads.find? (fun l => l.email == email)

/-- Model of `prisma.inboundEmail.update` on the `processed` and `error`
columns of the row with the given id. -/
def updateInbound (s : Store) (id : String) (p : Bool) (err : Option (List Char)) : Store :=
  { s with
    inboundEmails :=
      s.inboundEmails.map (fun e =>
        if e.id == id then { e with processed := p, error := err } else e) }

/-- Errors raised by the store itself. -/
inductive StoreError where
  | uniqueViolation
deriving DecidableEq

/-- The store-level insert backed by the `Lead_email_key` unique index: the
row is rejected — whatever the application checked beforehand — when a lead
with the same email already exists. -/
def storeInsertLead (s : Store) (l : Lead) : Except StoreError Store :=
  if s.leads.any (fun l2 => l2.email == l.email) then .error .uniqueViolation
  else .ok { s with leads := s.leads ++ [l] }

/-- Model of `prisma.lead.upsert({ where: { email }, create, update: {} })`:
atomic per email; when a lead with the email exists it is returned with no
field changed (`update: {}`), otherwise the row is created with the schema
defaults `status = "NEW"`, `sequenceDay = 0`. -/
def leadUpsert (s : Store) (freshId : String) (name email phone : List Char) : Store × Lead :=
  match findLeadByEmail s email with
  | some l => (s, l)
  | none =>
    let l : Lead :=
      { id := freshId, name := name, email := email, phone := phone
        status := "NEW", sequenceDay := 0 }
    ({ s with leads := s.leads ++ [l] }, l)

/-- The result pair `{ inboundEmail, lead }` of the service. -/
structure ProcessResult where
  inboundEmail : InboundEmail
  lead : Option Lead
deriving DecidableEq

/-- Failure injection for the two store writes inside the `try` block: the
upsert or the mark-processed update may throw a transient store error with
the given message.  `noFault` is the normal deterministic run. -/
inductive Fault where
  | noFault
  | failUpsert (msg : List Char)
  | failMark (msg : List Char)
deriving DecidableEq

/-- Model of `processInboundEmail` from the source.  `freshId` stands for the id the
store would assign to a newly created lead.  A missing `InboundEmail` row
propagates as a hard failure (`findUniqueOrThrow` sits outside the `try`
block); inside the `try` block a `LeadParseError` marks the row
`processed = true` with the error message, while an injected store fault
marks it `processed = false` with the fault message — in both cases the
service returns normally with a `none` lead. -/
def processInboundEmail (s : Store) (inboundEmailId : String) (freshId : String)
    (fault : Fault) : Except String (Store × ProcessResult) :=
  match findInbound s inboundEmailId with
  | none => .error "NotFoundError"
  | some inboundEmail =>
    if inboundEmail.processed then
      .ok (s, { inboundEmail := inboundEmail, lead := none })
    else
      match parseLeadFromEmail inboundEmail.rawText with
      | .error e =>
        .ok (updateInbound s inboundEmailId true (some e.message),
             { inboundEmail := { inboundEmail with processed := true, error := some e.message }
               lead := none })
      | .ok parsed =>
        match fault with
        | .failUpsert msg =>
          .ok (updateInbound s inboundEmailId false (some msg),
               { inboundEmail := { inboundEmail with processed := false, error := some msg }
                 lead := none })
        | .failMark msg =>
          let s2 := (leadUpsert s freshId parsed.name parsed.email parsed.phone).1
          .ok (updateInbound s2 inboundEmailId false (some msg),
               { inboundEmail := { inboundEmail with processed := false, error := some msg }
                 lead := none })
        | .noFault =>
          let r := leadUpsert s freshId parsed.name parsed.email parsed.phone
          .ok (updateInbound r.1 inboundEmailId true none,
               { inboundEmail := { inboundEmail with processed := true, error := none }
                 lead := some r.2 })

/-- The load-bearing invariant: at most one lead per distinct email. -/
def emailUnique (leads : List Lead) : Prop :=
  leads.Pairwise (fun a b => a.email ≠ b.email)

instance (leads : List Lead) : Decidable (emailUnique leads) := by
  unfold emailUnique
  exact List.instDecidablePairwise leads

/-! ## Line-structure predicates

The universally quantified Extractor claims speak about texts given as a
list of lines.  `joinLines` rebuilds the text; `startsLabelCI` and
`goodLineCheck` are executable line-local checks used as hypotheses, and
they are related to the matcher by the lemmas below. -/

/-- Join lines with `'\n'` separators (no trailing newline). -/
def joinLines : List (List Char) → List Char
  | [] => []
  | [l] => l
  | l :: ls => l ++ '\n' :: joinLines ls

/-- Whether a line begins (case-insensitively) with the given lower-case
label. -/
def startsLabelCI : List Char → List Char → Bool
  | [], _ => true
  | _ :: _, [] => false
  | lc :: ls, c :: cs => c.toLower == lc && startsLabelCI ls cs

/-- Line-local check that a line has the shape
`<label><ws>*:<ws>*<value>` with a non-empty value; returns the value (the
line's suffix from its first non-whitespace character after the colon). -/
def goodLineCheck (label l : List Char) : Option (List Char) :=
  match stripLabelCI label l with
  | none => none
  | some r1 =>
    match r1.dropWhile isWS with
    | ':' :: r2 =>
      match r2.dropWhile isWS with
      | [] => none
      | c :: cs => some (c :: cs)
    | _ => none

/-- First line that begins with the label, provided it passes
`goodLineCheck`; lines before it must not begin with the label. -/
def findLabeled (label : List Char) : List (List Char) → Option (List Char)
  | [] => none
  | l :: ls => if startsLabelCI label l then goodLineCheck label l else findLabeled label ls

/-- A field counts as missing for `extractField` exactly when the regex
search finds no match or the capture trims to the empty string. -/
def fieldMissing (label body : List Char) : Bool :=
  match scan label body with
  | none => true
  | some cap => (trim cap).isEmpty

/-- Whether `small` occurs at the very start of `big`. -/
def leadsWith : List Char → List Char → Bool
  | [], _ => true
  | _ :: _, [] => false
  | a :: as, b :: bs => a == b && leadsWith as bs

/-- Whether `small` occurs contiguously anywhere inside `big`. -/
def occursIn (small : List Char) : List Char → Bool
  | [] => leadsWith small []
  | b :: bs => leadsWith small (b :: bs) || occursIn small bs

/-! ## Concrete fixtures used by the witnesses -/

/-- A well-formed version-1 email body. -/
def sampleBody : List Char :=
  "Name: John Smith\nPhone: 555-123-4567\nEmail: john@email.com".data

/-- The lead that `sampleBody` parses to, as created by the upsert with
fresh id `"L1"`. -/
def sampleLead : Lead :=
  { id := "L1", name := "John Smith".data, email := "john@email.com".data
    phone := "+15551234567".data, status := "NEW", sequenceDay := 0 }

/-- A store holding one unprocessed raw event with `sampleBody`. -/
def storeFresh : Store :=
  { inboundEmails :=
      [{ id := "e1", subject := "lead", rawText := sampleBody, processed := false, error := none }]
    leads := [] }

/-- A store holding one already-processed raw event and one existing lead. -/
def storeDone : Store :=
  { inboundEmails :=
      [{ id := "e1", subject := "lead", rawText := sampleBody, processed := true, error := none }]
    leads := [sampleLead] }

/-- The raw event of `storeFresh` after a successful run. -/
def inboundDone : InboundEmail :=
  { id := "e1", subject := "lead", rawText := sampleBody, processed := true, error := none }

/-- `storeFresh` after a successful run: event marked processed, lead created. -/
def storeFreshDone : Store :=
  { inboundEmails := [inboundDone], leads := [sampleLead] }

/-- A body whose `Name` line is absent. -/
def noNameBody : List Char :=
  "Hello\nPhone: 555-123-4567\nEmail: john@email.com".data

/-- A store holding one unprocessed raw event with `noNameBody`. -/
def storeBad : Store :=
  { inboundEmails :=
      [{ id := "e2", subject := "junk", rawText := noNameBody, processed := false, error := none }]
    leads := [] }

/-- A lead already present for `john@email.com`, with details differing from
any later submission. -/
def priorLead : Lead :=
  { id := "L0", name := "Old Name".data, email := "john@email.com".data
    phone := "+19998887777".data, status := "NEW", sequenceDay := 0 }

/-- A second submission for the same email with different name and phone. -/
def secondBody : List Char :=
  "Name: Jane Roe\nPhone: (555) 123-4567\nEmail: john@email.com".data

/-- A store with the prior lead and an unprocessed second submission. -/
def storeSecond : Store :=
  { inboundEmails :=
      [{ id := "e3", subject := "lead", rawText := secondBody, processed := false, error := none }]
    leads := [priorLead] }

/-- A forwarded email: the three labeled lines buried among unrelated lines,
labels in mixed case and mixed order, values carrying stray whitespace. -/
def sampleLines : List (List Char) :=
  ["---------- Forwarded message ----------".data,
   "From: someone@corp.com".data,
   "".data,
   "Email: john@email.com".data,
   "NAME: John Smith".data,
   "Phone:  555-123-4567 ".data,
   "".data,
   "Sent from my iPhone".data]

/-- A body whose `Name` line is present but has an empty value; the lines
after it are well-formed. -/
def emptyNameBody : List Char :=
  "Name:\nPhone: 555-123-4567\nEmail: john@email.com".data

/-- A 13-digit raw phone value rejected by normalization. -/
def thirteenDigits : List Char := "2222222222222".data

/-! ## Matcher lemmas -/

theorem matchAt_nil (label : List Char) : matchAt label [] = none := by
  cases label <;> rfl

theorem stripLabelCI_mem {label l r : List Char} (h : stripLabelCI label l = some r) :
    ∀ c ∈ r, c ∈ l := by
  induction label generalizing l with
  | nil =>
    simp only [stripLabelCI, Option.some.injEq] at h
    subst h; exact fun c hc => hc
  | cons lc ls ih =>
    cases l with
    | nil => exact absurd h (by simp [stripLabelCI])
    | cons c cs =>
      simp only [stripLabelCI] at h
      by_cases hc : c.toLower = lc
      · rw [if_pos hc] at h
        exact fun x hx => List.mem_cons_of_mem _ (ih h x hx)
      · rw [if_neg hc] at h; exact absurd h (by simp)

theorem stripLabelCI_append {label l r : List Char} (t : List Char)
    (h : stripLabelCI label l = some r) :
    stripLabelCI label (l ++ t) = some (r ++ t) := by
  induction label generalizing l with
  | nil =>
    simp only [stripLabelCI, Option.some.injEq] at h
    subst h; rfl
  | cons lc ls ih =>
    cases l with
    | nil => exact absurd h (by simp [stripLabelCI])
    | cons c cs =>
      simp only [stripLabelCI] at h ⊢
      by_cases hc : c.toLower = lc
      · rw [if_pos hc] at h ⊢; exact ih h
      · rw [if_neg hc] at h; exact absurd h (by simp)

theorem dropWhile_head_not {p : Char → Bool} {l : List Char} {c : Char} {cs : List Char}
    (h : l.dropWhile p = c :: cs) : p c = false := by
  induction l with
  | nil => simp [List.dropWhile] at h
  | cons a as ih =>
    by_cases ha : p a
    · rw [List.dropWhile_cons_of_pos ha] at h; exact ih h
    · rw [List.dropWhile_cons_of_neg ha] at h
      obtain ⟨rfl, -⟩ := List.cons.inj h
      exact Bool.eq_false_iff.mpr ha

theorem dropWhile_append_cons {p : Char → Bool} {l : List Char} {c : Char} {cs : List Char}
    (t : List Char) (h : l.dropWhile p = c :: cs) :
    (l ++ t).dropWhile p = c :: (cs ++ t) := by
  induction l with
  | nil => simp [List.dropWhile] at h
  | cons a as ih =>
    by_cases ha : p a
    · rw [List.dropWhile_cons_of_pos ha] at h
      rw [List.cons_append, List.dropWhile_cons_of_pos ha]
      exact ih h
    · rw [List.dropWhile_cons_of_neg ha] at h
      obtain ⟨rfl, rfl⟩ := List.cons.inj h
      rw [List.cons_append, List.dropWhile_cons_of_neg ha]

theorem takeWhile_no_nl {u : List Char} (hu : ∀ c ∈ u, c ≠ '\n') :
    u.takeWhile (fun d => d ≠ '\n') = u := by
  induction u with
  | nil => rfl
  | cons c cs ih =>
    have hc : c ≠ '\n' := hu c (List.mem_cons_self ..)
    simp only [List.takeWhile_cons, decide_eq_true_eq]
    rw [if_pos hc]
    rw [ih (fun x hx => hu x (List.mem_cons_of_mem _ hx))]

theorem takeWhile_no_nl_append {u w : List Char} (hu : ∀ c ∈ u, c ≠ '\n') :
    (u ++ '\n' :: w).takeWhile (fun d => d ≠ '\n') = u := by
  induction u with
  | nil => simp [List.takeWhile_cons]
  | cons c cs ih =>
    have hc : c ≠ '\n' := hu c (List.mem_cons_self ..)
    simp only [List.cons_append, List.takeWhile_cons, decide_eq_true_eq]
    rw [if_pos hc]
    rw [ih (fun x hx => hu x (List.mem_cons_of_mem _ hx))]

theorem goodLineCheck_eq {label l v : List Char} (h : goodLineCheck label l = some v) :
    ∃ r1 r2 c cs, stripLabelCI label l = some r1 ∧ r1.dropWhile isWS = ':' :: r2 ∧
      r2.dropWhile isWS = c :: cs ∧ v = c :: cs := by
  unfold goodLineCheck at h
  split at h
  · exact absurd h (by simp)
  · next r1 hs =>
    split at h
    · next r2 hd =>
      split at h
      · exact absurd h (by simp)
      · next c cs hd2 =>
        simp only [Option.some.injEq] at h
        exact ⟨r1, r2, c, cs, hs, hd, hd2, h.symm⟩
    · exact absurd h (by simp)

/-- Elements of the capture of a good line lie in the line itself. -/
theorem goodLineCheck_mem {label l v : List Char} (h : goodLineCheck label l = some v) :
    ∀ c ∈ v, c ∈ l := by
  obtain ⟨r1, r2, c, cs, hs, hd, hd2, rfl⟩ := goodLineCheck_eq h
  intro x hx
  have hx2 : x ∈ r2.dropWhile isWS := by rw [hd2]; exact hx
  have hx3 : x ∈ r2 := (List.dropWhile_sublist (p := isWS) (l := r2)).mem hx2
  have hx4 : x ∈ ':' :: r2 := List.mem_cons_of_mem _ hx3
  have hx5 : x ∈ r1 := by
    rw [← hd] at hx4
    exact (List.dropWhile_sublist (p := isWS) (l := r1)).mem hx4
  exact stripLabelCI_mem hs x hx5

/-- The capture of a good line starts with a non-whitespace character. -/
theorem goodLineCheck_head {label l : List Char} {c : Char} {cs : List Char}
    (h : goodLineCheck label l = some (c :: cs)) : isWS c = false := by
  obtain ⟨r1, r2, c2, cs2, hs, hd, hd2, hv⟩ := goodLineCheck_eq h
  obtain ⟨rfl, rfl⟩ := List.cons.inj hv
  exact dropWhile_head_not hd2

theorem matchAt_goodLine_append {label l v : List Char} (t : List Char)
    (hnl : ∀ c ∈ l, c ≠ '\n') (h : goodLineCheck label l = some v) :
    matchAt label (l ++ '\n' :: t) = some v := by
  obtain ⟨r1, r2, c, cs, hs, hd, hd2, rfl⟩ := goodLineCheck_eq h
  have hcs : ∀ x ∈ cs, x ≠ '\n' := fun x hx =>
    hnl x (goodLineCheck_mem h x (List.mem_cons_of_mem _ hx))
  have h1 := stripLabelCI_append ('\n' :: t) hs
  have h2 := dropWhile_append_cons ('\n' :: t) hd
  have h3 := dropWhile_append_cons ('\n' :: t) hd2
  simp only [matchAt, h1, h2, captureAfterColon, h3]
  rw [takeWhile_no_nl_append hcs]

theorem matchAt_goodLine_self {label l v : List Char}
    (hnl : ∀ c ∈ l, c ≠ '\n') (h : goodLineCheck label l = some v) :
    matchAt label l = some v := by
  obtain ⟨r1, r2, c, cs, hs, hd, hd2, rfl⟩ := goodLineCheck_eq h
  have hcs : ∀ x ∈ cs, x ≠ '\n' := fun x hx =>
    hnl x (goodLineCheck_mem h x (List.mem_cons_of_mem _ hx))
  simp only [matchAt, hs, hd, captureAfterColon, hd2]
  rw [takeWhile_no_nl hcs]

theorem stripLabelCI_not_starts {label l : List Char} (ext : List Char)
    (hns : startsLabelCI label l = false) (hnl : '\n' ∉ label)
    (hext : ext = [] ∨ ∃ u, ext = '\n' :: u) :
    stripLabelCI label (l ++ ext) = none := by
  induction label generalizing l with
  | nil => simp [startsLabelCI] at hns
  | cons lc ls ih =>
    cases l with
    | nil =>
      rcases hext with rfl | ⟨u, rfl⟩
      · rfl
      · have hlc : lc ≠ '\n' := fun hh => hnl (hh ▸ List.mem_cons_self ..)
        have : ('\n').toLower = '\n' := by decide
        simp only [List.nil_append, stripLabelCI, this]
        rw [if_neg (fun hh => hlc hh.symm)]
    | cons c cs =>
      simp only [startsLabelCI, Bool.and_eq_false_iff] at hns
      simp only [List.cons_append, stripLabelCI]
      rcases hns with hc | hrest
      · rw [if_neg (by simpa using hc)]
      · by_cases hc : c.toLower = lc
        · rw [if_pos hc]
          exact ih hrest (fun hh => hnl (List.mem_cons_of_mem _ hh))
        · rw [if_neg hc]

theorem matchAt_none_of_strip {label s : List Char} (h : stripLabelCI label s = none) :
    matchAt label s = none := by simp [matchAt, h]

/-! ## Scan lemmas -/

theorem scanAux_true_of_matchAt {label s cap : List Char} (hm : matchAt label s = some cap) :
    scanAux label true s = some cap := by
  cases s with
  | nil => rw [matchAt_nil] at hm; exact absurd hm (by simp)
  | cons c cs => simp [scanAux, hm]

theorem scanAux_false_no_nl {label : List Char} {l : List Char} (h : ∀ c ∈ l, c ≠ '\n') :
    scanAux label false l = none := by
  induction l with
  | nil => rfl
  | cons c cs ih =>
    have hc : (c == '\n') = false := by
      simpa using h c (List.mem_cons_self ..)
    simp only [scanAux, if_neg (by simp : ¬(false = true)), hc]
    exact ih (fun x hx => h x (List.mem_cons_of_mem _ hx))

theorem scanAux_false_append {label : List Char} {l t : List Char} (h : ∀ c ∈ l, c ≠ '\n') :
    scanAux label false (l ++ '\n' :: t) = scanAux label true t := by
  induction l with
  | nil => simp [scanAux]
  | cons c cs ih =>
    have hc : (c == '\n') = false := by
      simpa using h c (List.mem_cons_self ..)
    simp only [List.cons_append, scanAux, if_neg (by simp : ¬(false = true)), hc]
    exact ih (fun x hx => h x (List.mem_cons_of_mem _ hx))

theorem scanAux_true_skip {label : List Char} {l t : List Char} (hl : ∀ c ∈ l, c ≠ '\n')
    (hm : matchAt label (l ++ '\n' :: t) = none) :
    scanAux label true (l ++ '\n' :: t) = scanAux label true t := by
  cases l with
  | nil =>
    simp only [List.nil_append] at hm ⊢
    simp [scanAux, hm]
  | cons c cs =>
    have hc : (c == '\n') = false := by
      simpa using hl c (List.mem_cons_self ..)
    simp only [List.cons_append] at hm ⊢
    simp only [scanAux, if_pos rfl, hm, hc]
    exact scanAux_false_append (fun x hx => hl x (List.mem_cons_of_mem _ hx))

/-- A whole line that does not begin with the label is passed over by the
scan: the attempt at its line start fails. -/
theorem matchAt_not_starts {label l : List Char} (ext : List Char)
    (hns : startsLabelCI label l = false) (hnl : '\n' ∉ label)
    (hext : ext = [] ∨ ∃ u, ext = '\n' :: u) :
    matchAt label (l ++ ext) = none :=
  matchAt_none_of_strip (stripLabelCI_not_starts ext hns hnl hext)

/-- Main matcher lemma: when the first line beginning with the label passes
`goodLineCheck` with value `v`, and no earlier line begins with the label,
the multiline scan of the joined text returns exactly `v`. -/
theorem scan_joinLines_found {label : List Char} (hlab : '\n' ∉ label) :
    ∀ {lines : List (List Char)} {v : List Char},
      (∀ l ∈ lines, '\n' ∉ l) →
      findLabeled label lines = some v →
      scan label (joinLines lines) = some v := by
  intro lines
  induction lines with
  | nil => intro v _ hf; exact absurd hf (by simp [findLabeled])
  | cons l ls ih =>
    intro v hln hf
    have hlnl : ∀ c ∈ l, c ≠ '\n' := fun c hc he =>
      (hln l (List.mem_cons_self ..)) (he ▸ hc)
    unfold findLabeled at hf
    by_cases hs : startsLabelCI label l
    · rw [if_pos hs] at hf
      cases ls with
      | nil =>
        show scanAux label true (joinLines [l]) = some v
        have hm := matchAt_goodLine_self hlnl hf
        exact scanAux_true_of_matchAt (by simpa [joinLines] using hm)
      | cons l2 ls2 =>
        show scanAux label true (joinLines (l :: l2 :: ls2)) = some v
        have hm := matchAt_goodLine_append (joinLines (l2 :: ls2)) hlnl hf
        exact scanAux_true_of_matchAt (by simpa [joinLines] using hm)
    · rw [if_neg hs] at hf
      cases ls with
      | nil => exact absurd hf (by simp [findLabeled])
      | cons l2 ls2 =>
        have hm : matchAt label (l ++ '\n' :: joinLines (l2 :: ls2)) = none :=
          matchAt_not_starts _ (Bool.eq_false_iff.mpr hs) hlab (Or.inr ⟨_, rfl⟩)
        show scanAux label true (joinLines (l :: l2 :: ls2)) = some v
        have hj : joinLines (l :: l2 :: ls2) = l ++ '\n' :: joinLines (l2 :: ls2) := rfl
        rw [hj, scanAux_true_skip hlnl hm]
        exact ih (fun x hx => hln x (List.mem_cons_of_mem _ hx)) hf

/-- When no line begins with the label, the scan finds nothing. -/
theorem scan_joinLines_none {label : List Char} (hlab : '\n' ∉ label) :
    ∀ {lines : List (List Char)},
      (∀ l ∈ lines, '\n' ∉ l) →
      (∀ l ∈ lines, startsLabelCI label l = false) →
      scan label (joinLines lines) = none := by
  intro lines
  induction lines with
  | nil => intro _ _; rfl
  | cons l ls ih =>
    intro hln hns
    have hlnl : ∀ c ∈ l, c ≠ '\n' := fun c hc he =>
      (hln l (List.mem_cons_self ..)) (he ▸ hc)
    cases ls with
    | nil =>
      have hm : matchAt label (l ++ []) = none :=
        matchAt_not_starts [] (hns l (List.mem_cons_self ..)) hlab (Or.inl rfl)
      rw [List.append_nil] at hm
      show scanAux label true (joinLines [l]) = none
      have hj : joinLines [l] = l := rfl
      rw [hj]
      cases hl : l with
      | nil => rfl
      | cons c cs =>
        rw [hl] at hm hlnl
        have hc : (c == '\n') = false := by
          simpa using hlnl c (List.mem_cons_self ..)
        simp only [scanAux, if_pos rfl, hm, hc]
        exact scanAux_false_no_nl (fun x hx => hlnl x (List.mem_cons_of_mem _ hx))
    | cons l2 ls2 =>
      have hm : matchAt label (l ++ '\n' :: joinLines (l2 :: ls2)) = none :=
        matchAt_not_starts _ (hns l (List.mem_cons_self ..)) hlab (Or.inr ⟨_, rfl⟩)
      show scanAux label true (joinLines (l :: l2 :: ls2)) = none
      have hj : joinLines (l :: l2 :: ls2) = l ++ '\n' :: joinLines (l2 :: ls2) := rfl
      rw [hj, scanAux_true_skip hlnl hm]
      exact ih (fun x hx => hln x (List.mem_cons_of_mem _ hx))
        (fun x hx => hns x (List.mem_cons_of_mem _ hx))

/-! ## Trim and extractField lemmas -/

theorem dropWhile_append_last_ne {p : Char → Bool} {a : Char} (ha : p a = false) :
    ∀ u : List Char, (u ++ [a]).dropWhile p ≠ [] := by
  intro u
  induction u with
  | nil =>
    simp only [List.nil_append, List.dropWhile_cons, ha]
    simp
  | cons b bs ih =>
    by_cases hb : p b
    · rw [List.cons_append, List.dropWhile_cons_of_pos hb]; exact ih
    · rw [List.cons_append, List.dropWhile_cons_of_neg hb]; simp

theorem trim_cons_ne_nil {c : Char} {cs : List Char} (hc : isWS c = false) :
    trim (c :: cs) ≠ [] := by
  unfold trim
  rw [List.dropWhile_cons_of_neg (by simp [hc])]
  intro hcon
  rw [List.reverse_eq_nil_iff] at hcon
  have : (c :: cs).reverse = cs.reverse ++ [c] := by simp
  rw [this] at hcon
  exact dropWhile_append_last_ne hc cs.reverse hcon

/-- The value returned by `findLabeled` does not trim to the empty string. -/
theorem findLabeled_trim_ne {label : List Char} :
    ∀ {lines : List (List Char)} {v : List Char},
      findLabeled label lines = some v → trim v ≠ [] := by
  intro lines
  induction lines with
  | nil => intro v hf; exact absurd hf (by simp [findLabeled])
  | cons l ls ih =>
    intro v hf
    unfold findLabeled at hf
    by_cases hs : startsLabelCI label l
    · rw [if_pos hs] at hf
      obtain ⟨r1, r2, c, cs, -, -, -, rfl⟩ := goodLineCheck_eq hf
      exact trim_cons_ne_nil (goodLineCheck_head hf)
    · rw [if_neg hs] at hf
      exact ih hf

theorem extractField_ok {body label v : List Char} {fn : String}
    (hs : scan label body = some v) (hv : trim v ≠ []) :
    extractField body label fn = .ok (trim v) := by
  simp [extractField, hs, hv]

theorem extractField_missing {body label : List Char} {fn : String}
    (h : fieldMissing label body = true) :
    extractField body label fn = .error (.missingField fn) := by
  unfold fieldMissing at h
  unfold extractField
  cases hs : scan label body with
  | none => rfl
  | some cap =>
    rw [hs] at h
    have ht : trim cap = [] := by simpa using h
    show (if trim cap = [] then Except.error (LeadParseError.missingField fn)
          else Except.ok (trim cap)) = Except.error (LeadParseError.missingField fn)
    rw [if_pos ht]

theorem extractField_found {body label : List Char} {fn : String}
    (h : fieldMissing label body = false) :
    ∃ cap, scan label body = some cap ∧ trim cap ≠ [] ∧
      extractField body label fn = .ok (trim cap) := by
  unfold fieldMissing at h
  cases hs : scan label body with
  | none => rw [hs] at h; exact absurd h (by simp)
  | some cap =>
    rw [hs] at h
    have hne : trim cap ≠ [] := by simpa using h
    exact ⟨cap, rfl, hne, extractField_ok hs hne⟩

/-! ## Substring lemmas -/

theorem leadsWith_self_append (m t : List Char) : leadsWith m (m ++ t) = true := by
  induction m with
  | nil => rfl
  | cons a as ih => simp [leadsWith, ih]

theorem occursIn_self (m t : List Char) : occursIn m (m ++ t) = true := by
  cases m with
  | nil => cases t <;> simp [occursIn, leadsWith]
  | cons a as =>
    show occursIn (a :: as) (a :: (as ++ t)) = true
    unfold occursIn
    rw [show a :: (as ++ t) = (a :: as) ++ t from rfl, leadsWith_self_append]
    rfl

theorem occursIn_append (m pre post : List Char) :
    occursIn m (pre ++ (m ++ post)) = true := by
  induction pre with
  | nil => simpa using occursIn_self m post
  | cons b bs ih =>
    show occursIn m (b :: (bs ++ (m ++ post))) = true
    unfold occursIn
    rw [ih]
    simp

/-! ## Store lemmas -/

theorem updateInbound_leads (s : Store) (id : String) (p : Bool) (err : Option (List Char)) :
    (updateInbound s id p err).leads = s.leads := rfl

theorem find?_cons_pos {α : Type} (p : α → Bool) (a : α) (l : List α) (h : p a = true) :
    List.find? p (a :: l) = some a := by
  unfold List.find?
  rw [h]

theorem find?_cons_neg {α : Type} (p : α → Bool) (a : α) (l : List α) (h : p a = false) :
    List.find? p (a :: l) = List.find? p l := by
  conv_lhs => unfold List.find?
  rw [h]

theorem find?_map_update (l : List InboundEmail) (id : String) (p : Bool)
    (err : Option (List Char)) :
    (l.map (fun e => if e.id == id then { e with processed := p, error := err } else e)).find?
        (fun e => e.id == id)
      = (l.find? (fun e => e.id == id)).map
          (fun e => { e with processed := p, error := err }) := by
  induction l with
  | nil => rfl
  | cons e es ih =>
    simp only [List.map_cons]
    by_cases he : e.id = id
    · have hb : (e.id == id) = true := by simpa using he
      rw [if_pos hb]
      rw [find?_cons_pos (fun x : InboundEmail => x.id == id)
            ({ e with processed := p, error := err }) _ hb]
      rw [find?_cons_pos (fun x : InboundEmail => x.id == id) e _ hb]
      rfl
    · have hb : (e.id == id) = false := by simpa using he
      rw [if_neg (by simpa using he)]
      rw [find?_cons_neg (fun x : InboundEmail => x.id == id) e _ hb]
      rw [find?_cons_neg (fun x : InboundEmail => x.id == id) e _ hb]
      exact ih

theorem findInbound_updateInbound (s : Store) (id : String) (p : Bool)
    (err : Option (List Char)) :
    findInbound (updateInbound s id p err) id =
      (findInbound s id).map (fun e => { e with processed := p, error := err }) := by
  unfold findInbound updateInbound
  exact find?_map_update s.inboundEmails id p err

theorem leadUpsert_inbounds (s : Store) (fid : String) (n em ph : List Char) :
    ((leadUpsert s fid n em ph).1).inboundEmails = s.inboundEmails := by
  unfold leadUpsert
  cases findLeadByEmail s em <;> rfl

theorem findInbound_leadUpsert (s : Store) (fid : String) (n em ph : List Char) (id : String) :
    findInbound ((leadUpsert s fid n em ph).1) id = findInbound s id := by
  unfold findInbound
  rw [leadUpsert_inbounds]

theorem leadUpsert_email (s : Store) (fid : String) (n em ph : List Char) :
    ((leadUpsert s fid n em ph).2).email = em := by
  unfold leadUpsert
  cases hf : findLeadByEmail s em with
  | none => rfl
  | some l =>
    have := List.find?_some hf
    simpa using this

theorem leadUpsert_found (s : Store) (fid : String) (n : List Char) {em : List Char} {L : Lead}
    (ph : List Char) (hL : findLeadByEmail s em = some L) :
    leadUpsert s fid n em ph = (s, L) := by
  unfold leadUpsert
  rw [hL]

theorem leadUpsert_unique {s : Store} (fid : String) (n em ph : List Char)
    (hu : emailUnique s.leads) : emailUnique ((leadUpsert s fid n em ph).1).leads := by
  unfold leadUpsert
  cases hf : findLeadByEmail s em with
  | some l => exact hu
  | none =>
    have hnone : ∀ l2 ∈ s.leads, ¬(l2.email == em) = true := by
      rw [← List.find?_eq_none]
      exact hf
    unfold emailUnique at hu ⊢
    rw [List.pairwise_append]
    refine ⟨hu, List.pairwise_singleton _ _, ?_⟩
    intro a ha b hb
    simp only [List.mem_singleton] at hb
    subst hb
    intro hcon
    exact hnone a ha (by simpa using hcon)

/-- Shape of a successful no-fault run on an unprocessed, parseable event. -/
theorem process_success_shape (s : Store) (id fid : String) (e : InboundEmail)
    (parsed : ParsedLead)
    (he : findInbound s id = some e) (hp : e.processed = false)
    (hparse : parseLeadFromEmail e.rawText = .ok parsed) :
    processInboundEmail s id fid .noFault =
      .ok (updateInbound (leadUpsert s fid parsed.name parsed.email parsed.phone).1 id true none,
           { inboundEmail := { e with processed := true, error := none }
             lead := some (leadUpsert s fid parsed.name parsed.email parsed.phone).2 }) := by
  simp [processInboundEmail, he, hp, hparse]

/-! ## Claim theorems -/

/-- C5: phone normalization satisfies the spec table exactly: the five US
layouts normalize to `+15551234567`, the two E.164 inputs pass through
unchanged, and every input without a leading `'+'` whose digit count after
stripping non-digits is 9, or 12 or more, fails with InvalidPhone. -/
theorem c5_phone_table :
    normalizePhone "555-123-4567".data = .ok "+15551234567".data
    ∧ normalizePhone "(555) 123-4567".data = .ok "+15551234567".data
    ∧ normalizePhone "5551234567".data = .ok "+15551234567".data
    ∧ normalizePhone "15551234567".data = .ok "+15551234567".data
    ∧ normalizePhone "1-555-123-4567".data = .ok "+15551234567".data
    ∧ normalizePhone "+15551234567".data = .ok "+15551234567".data
    ∧ normalizePhone "+447700900123".data = .ok "+447700900123".data
    ∧ ∀ raw : List Char, raw.head? ≠ some '+' →
        ((raw.filter Char.isDigit).length = 9 ∨ 12 ≤ (raw.filter Char.isDigit).length) →
        normalizePhone raw = .error (.invalidPhone raw) := by
  refine ⟨by decide, by decide, by decide, by decide, by decide, by decide, by decide, ?_⟩
  intro raw hhead hcount
  have h164 : e164Check raw = false := by
    cases raw with
    | nil => rfl
    | cons c cs =>
      by_cases hc : c = '+'
      · subst hc; exact absurd rfl hhead
      · unfold e164Check
        split
        · next ds heq => exact absurd (List.cons.inj heq).1 hc
        · rfl
  have hd10 : ¬((raw.filter Char.isDigit).length = 10) := by
    rcases hcount with h | h <;> omega
  have hd11 : ¬((raw.filter Char.isDigit).length = 11 ∧
      (raw.filter Char.isDigit).head? = some '1') := by
    rintro ⟨h11, -⟩
    rcases hcount with h | h <;> omega
  unfold normalizePhone
  rw [if_neg (by simp [h164]), if_neg hd10, if_neg hd11]

/-- C5 witness: a 9-digit input without a leading plus is rejected, by the
universal part of the table theorem applied at a concrete input. -/
theorem c5_phone_table_witness :
    normalizePhone "123456789".data = .error (.invalidPhone "123456789".data) :=
  c5_phone_table.2.2.2.2.2.2.2 "123456789".data (by decide) (Or.inl (by decide))

/-- C9 (amended): when normalization rejects a raw phone value, the error
detail includes the original raw string.  (The digit count is not included;
see the counterexample.) -/
theorem c9_error_detail_amended (raw : List Char) (e : LeadParseError)
    (h : normalizePhone raw = .error e) :
    occursIn raw (LeadParseError.message e) = true := by
  have he : e = .invalidPhone raw := by
    unfold normalizePhone at h
    split at h
    · exact absurd h (by simp)
    · split at h
      · exact absurd h (by simp)
      · split at h
        · exact absurd h (by simp)
        · exact (Except.error.inj h).symm
  subst he
  simp only [LeadParseError.message]
  rw [List.append_assoc]
  exact occursIn_append raw _ _

/-- C9 witness: the amended detail theorem applied at a concrete rejected
input. -/
theorem c9_error_detail_amended_witness :
    occursIn "abc".data (LeadParseError.message (.invalidPhone "abc".data)) = true :=
  c9_error_detail_amended "abc".data (.invalidPhone "abc".data) (by decide)

/-- C9 counterexample: for a 13-digit raw value (stripped digit count 13)
the InvalidPhone message contains the raw string but the digit count 13
appears nowhere in it, refuting the claim that the detail includes the
digit count of the stripped value. -/
theorem c9_counterexample :
    normalizePhone thirteenDigits = .error (.invalidPhone thirteenDigits)
    ∧ (thirteenDigits.filter Char.isDigit).length = 13
    ∧ occursIn thirteenDigits (LeadParseError.message (.invalidPhone thirteenDigits)) = true
    ∧ occursIn "13".data (LeadParseError.message (.invalidPhone thirteenDigits)) = false := by
  refine ⟨by decide, by decide, by decide, by decide⟩

/-- C10: on the idempotency fast path the returned lead is always `none`:
whenever the raw event is already processed, the service returns the pair
of the event and a null lead, leaving the store untouched. -/
theorem c10_fast_path_null_lead (s : Store) (id fid : String) (fault : Fault)
    (e : InboundEmail) (he : findInbound s id = some e) (hp : e.processed = true) :
    processInboundEmail s id fid fault = .ok (s, { inboundEmail := e, lead := none }) := by
  simp [processInboundEmail, he, hp]

/-- C10 witness: fast path on a store whose event is already processed and
whose earlier run created a lead. -/
theorem c10_fast_path_null_lead_witness :
    processInboundEmail storeDone "e1" "L9" .noFault =
      .ok (storeDone, { inboundEmail := inboundDone, lead := none }) :=
  c10_fast_path_null_lead storeDone "e1" "L9" .noFault inboundDone (by decide) (by decide)

/-- C3: on a permanent parse failure the event is marked handled with the
error message recorded in its error column, no lead is created (the lead
table is untouched), and the result carries a null lead. -/
theorem c3_parse_failure_terminal (s : Store) (id fid : String) (fault : Fault)
    (e : InboundEmail) (err : LeadParseError)
    (he : findInbound s id = some e) (hp : e.processed = false)
    (hparse : parseLeadFromEmail e.rawText = .error err) :
    processInboundEmail s id fid fault =
      .ok (updateInbound s id true (some err.message),
           { inboundEmail := { e with processed := true, error := some err.message }
             lead := none })
    ∧ (updateInbound s id true (some err.message)).leads = s.leads :=
  ⟨by simp [processInboundEmail, he, hp, hparse], rfl⟩

/-- C3 witness: processing an unparseable body (missing Name line) marks it
processed with the MissingField message and creates no lead. -/
theorem c3_parse_failure_terminal_witness :
    processInboundEmail storeBad "e2" "L9" .noFault =
      .ok (updateInbound storeBad "e2" true (some (LeadParseError.missingField "Name").message),
           { inboundEmail :=
               { id := "e2", subject := "junk", rawText := noNameBody, processed := true
                 error := some (LeadParseError.missingField "Name").message }
             lead := none })
    ∧ (updateInbound storeBad "e2" true
        (some (LeadParseError.missingField "Name").message)).leads = storeBad.leads :=
  c3_parse_failure_terminal storeBad "e2" "L9" .noFault
    { id := "e2", subject := "junk", rawText := noNameBody, processed := false, error := none }
    (.missingField "Name") (by decide) (by decide) (by decide)

/-- C1: at most one lead per distinct email, enforced by the store: the
store-level insert backed by the `Lead_email_key` unique index rejects any
row whose email is already present (whatever the application checked
first), an insert that the store accepts preserves the invariant, and
every run of the Orchestrator — under any fault schedule — preserves the
invariant. -/
theorem c1_email_uniqueness :
    (∀ (s : Store) (l : Lead), (∃ l2 ∈ s.leads, l2.email = l.email) →
      storeInsertLead s l = .error .uniqueViolation)
    ∧ (∀ (s : Store) (l : Lead) (s' : Store), emailUnique s.leads →
      storeInsertLead s l = .ok s' → emailUnique s'.leads)
    ∧ (∀ (s : Store) (id fid : String) (fault : Fault) (s' : Store) (r : ProcessResult),
      emailUnique s.leads → processInboundEmail s id fid fault = .ok (s', r) →
      emailUnique s'.leads) := by
  refine ⟨?_, ?_, ?_⟩
  · rintro s l ⟨l2, hl2, hem⟩
    unfold storeInsertLead
    rw [if_pos (by exact List.any_eq_true.mpr ⟨l2, hl2, by simpa using hem⟩)]
  · intro s l s' hu hok
    unfold storeInsertLead at hok
    split at hok
    · exact absurd hok (by simp)
    · next hany =>
      rw [Except.ok.injEq] at hok
      subst hok
      have hnone : ∀ l2 ∈ s.leads, l2.email ≠ l.email := by
        intro l2 hl2 hem
        exact hany (List.any_eq_true.mpr ⟨l2, hl2, by simpa using hem⟩)
      unfold emailUnique at hu ⊢
      rw [List.pairwise_append]
      refine ⟨hu, List.pairwise_singleton _ _, ?_⟩
      intro a ha b hb
      simp only [List.mem_singleton] at hb
      subst hb
      exact hnone a ha
  · intro s id fid fault s' r hu hok
    cases hfind : findInbound s id with
    | none =>
      simp only [processInboundEmail, hfind] at hok
      exact absurd hok (by simp)
    | some e =>
      by_cases hp : e.processed
      · have hshape : processInboundEmail s id fid fault =
            .ok (s, { inboundEmail := e, lead := none }) := by
          simp [processInboundEmail, hfind, hp]
        rw [hshape, Except.ok.injEq, Prod.mk.injEq] at hok
        obtain ⟨rfl, -⟩ := hok
        exact hu
      · have hp' : e.processed = false := by simpa using hp
        cases hparse : parseLeadFromEmail e.rawText with
        | error err =>
          have hshape : processInboundEmail s id fid fault =
              .ok (updateInbound s id true (some err.message),
                   { inboundEmail := { e with processed := true, error := some err.message }
                     lead := none }) := by
            simp [processInboundEmail, hfind, hp', hparse]
          rw [hshape, Except.ok.injEq, Prod.mk.injEq] at hok
          obtain ⟨hs, -⟩ := hok
          rw [← hs, updateInbound_leads]
          exact hu
        | ok parsed =>
          cases fault with
          | noFault =>
            have hshape := process_success_shape s id fid e parsed hfind hp' hparse
            rw [hshape, Except.ok.injEq, Prod.mk.injEq] at hok
            obtain ⟨hs, -⟩ := hok
            rw [← hs, updateInbound_leads]
            exact leadUpsert_unique fid parsed.name parsed.email parsed.phone hu
          | failUpsert msg =>
            have hshape : processInboundEmail s id fid (.failUpsert msg) =
                .ok (updateInbound s id false (some msg),
                     { inboundEmail := { e with processed := false, error := some msg }
                       lead := none }) := by
              simp [processInboundEmail, hfind, hp', hparse]
            rw [hshape, Except.ok.injEq, Prod.mk.injEq] at hok
            obtain ⟨hs, -⟩ := hok
            rw [← hs, updateInbound_leads]
            exact hu
          | failMark msg =>
            have hshape : processInboundEmail s id fid (.failMark msg) =
                .ok (updateInbound
                       (leadUpsert s fid parsed.name parsed.email parsed.phone).1
                       id false (some msg),
                     { inboundEmail := { e with processed := false, error := some msg }
                       lead := none }) := by
              simp [processInboundEmail, hfind, hp', hparse]
            rw [hshape, Except.ok.injEq, Prod.mk.injEq] at hok
            obtain ⟨hs, -⟩ := hok
            rw [← hs, updateInbound_leads]
            exact leadUpsert_unique fid parsed.name parsed.email parsed.phone hu

/-- C1 witness: the Orchestrator part of the uniqueness theorem applied to
a concrete store. -/
theorem c1_email_uniqueness_witness : emailUnique storeDone.leads :=
  c1_email_uniqueness.2.2 storeDone "e1" "L9" .noFault storeDone
    { inboundEmail := inboundDone, lead := none } (by decide) (by decide)

/-- C2: record-level idempotency: an already-processed event returns
immediately with the store unchanged and a null lead, and two sequential
no-fault runs on the same event leave the state after the second run
identical to the state after the first. -/
theorem c2_idempotent :
    (∀ (s : Store) (id fid : String) (fault : Fault) (e : InboundEmail),
      findInbound s id = some e → e.processed = true →
      processInboundEmail s id fid fault = .ok (s, { inboundEmail := e, lead := none }))
    ∧ (∀ (s : Store) (id fid1 fid2 : String) (s1 : Store) (r1 : ProcessResult),
      processInboundEmail s id fid1 .noFault = .ok (s1, r1) →
      ∃ r2, processInboundEmail s1 id fid2 .noFault = .ok (s1, r2)) := by
  constructor
  · intro s id fid fault e he hp
    simp [processInboundEmail, he, hp]
  · intro s id fid1 fid2 s1 r1 hrun
    cases hfind : findInbound s id with
    | none =>
      simp only [processInboundEmail, hfind] at hrun
      exact absurd hrun (by simp)
    | some e =>
      by_cases hp : e.processed
      · have hshape : processInboundEmail s id fid1 .noFault =
            .ok (s, { inboundEmail := e, lead := none }) := by
          simp [processInboundEmail, hfind, hp]
        rw [hshape, Except.ok.injEq, Prod.mk.injEq] at hrun
        obtain ⟨rfl, -⟩ := hrun
        exact ⟨{ inboundEmail := e, lead := none }, by simp [processInboundEmail, hfind, hp]⟩
      · have hp' : e.processed = false := by simpa using hp
        cases hparse : parseLeadFromEmail e.rawText with
        | error err =>
          have hshape : processInboundEmail s id fid1 .noFault =
              .ok (updateInbound s id true (some err.message),
                   { inboundEmail := { e with processed := true, error := some err.message }
                     lead := none }) := by
            simp [processInboundEmail, hfind, hp', hparse]
          rw [hshape, Except.ok.injEq, Prod.mk.injEq] at hrun
          obtain ⟨hs, -⟩ := hrun
          have hf2 : findInbound s1 id =
              some { e with processed := true, error := some err.message } := by
            rw [← hs, findInbound_updateInbound, hfind]
            rfl
          exact ⟨{ inboundEmail := { e with processed := true, error := some err.message }
                   lead := none },
                 by simp [processInboundEmail, hf2]⟩
        | ok parsed =>
          have hshape := process_success_shape s id fid1 e parsed hfind hp' hparse
          rw [hshape, Except.ok.injEq, Prod.mk.injEq] at hrun
          obtain ⟨hs, -⟩ := hrun
          have hf2 : findInbound s1 id =
              some { e with processed := true, error := none } := by
            rw [← hs, findInbound_updateInbound, findInbound_leadUpsert, hfind]
            rfl
          exact ⟨{ inboundEmail := { e with processed := true, error := none }
                   lead := none },
                 by simp [processInboundEmail, hf2]⟩

/-- C2 witness: the double-run part applied to an already-processed store. -/
theorem c2_idempotent_witness :
    ∃ r2, processInboundEmail storeDone "e1" "L8" .noFault = .ok (storeDone, r2) :=
  c2_idempotent.2 storeDone "e1" "L7" "L8" storeDone
    { inboundEmail := inboundDone, lead := none } (by decide)

/-- C4: a transient store failure (at the upsert or at the mark-processed
write) records the failure message but leaves the event unprocessed, and a
subsequent successful no-fault rerun produces the lead for the extracted
email and flips the processed flag to true. -/
theorem c4_transient_failure_retry (s : Store) (id fid : String) (fault : Fault)
    (e : InboundEmail) (parsed : ParsedLead) (msg : List Char)
    (he : findInbound s id = some e) (hp : e.processed = false)
    (hparse : parseLeadFromEmail e.rawText = .ok parsed)
    (hf : fault = .failUpsert msg ∨ fault = .failMark msg) :
    ∃ s', processInboundEmail s id fid fault =
        .ok (s', { inboundEmail := { e with processed := false, error := some msg }
                   lead := none })
      ∧ findInbound s' id = some { e with processed := false, error := some msg }
      ∧ ∀ fid2, ∃ s'' lead,
          processInboundEmail s' id fid2 .noFault =
            .ok (s'', { inboundEmail := { e with processed := true, error := none }
                        lead := some lead })
          ∧ lead.email = parsed.email
          ∧ findInbound s'' id = some { e with processed := true, error := none } := by
  have hhelper : ∀ s2 : Store,
      findInbound s2 id = some { e with processed := false, error := some msg } →
      ∀ fid2, ∃ s'' lead,
        processInboundEmail s2 id fid2 .noFault =
          .ok (s'', { inboundEmail := { e with processed := true, error := none }
                      lead := some lead })
        ∧ lead.email = parsed.email
        ∧ findInbound s'' id = some { e with processed := true, error := none } := by
    intro s2 hf2 fid2
    have hshape := process_success_shape s2 id fid2
      { e with processed := false, error := some msg } parsed hf2 rfl hparse
    refine ⟨_, (leadUpsert s2 fid2 parsed.name parsed.email parsed.phone).2, hshape,
      leadUpsert_email s2 fid2 parsed.name parsed.email parsed.phone, ?_⟩
    rw [findInbound_updateInbound, findInbound_leadUpsert, hf2]
    rfl
  rcases hf with rfl | rfl
  · refine ⟨updateInbound s id false (some msg), ?_, ?_, hhelper _ ?_⟩
    · simp [processInboundEmail, he, hp, hparse]
    · rw [findInbound_updateInbound, he]; rfl
    · rw [findInbound_updateInbound, he]; rfl
  · refine ⟨updateInbound (leadUpsert s fid parsed.name parsed.email parsed.phone).1
        id false (some msg), ?_, ?_, hhelper _ ?_⟩
    · simp [processInboundEmail, he, hp, hparse]
    · rw [findInbound_updateInbound, findInbound_leadUpsert, he]; rfl
    · rw [findInbound_updateInbound, findInbound_leadUpsert, he]; rfl

/-- C4 witness: a failed upsert on the fresh store, then a successful
rerun. -/
theorem c4_transient_failure_retry_witness :
    ∃ s', processInboundEmail storeFresh "e1" "L1" (Fault.failUpsert "db down".data) =
        .ok (s', { inboundEmail := { id := "e1", subject := "lead", rawText := sampleBody
                                     processed := false, error := some "db down".data }
                   lead := none })
      ∧ findInbound s' "e1" =
          some { id := "e1", subject := "lead", rawText := sampleBody
                 processed := false, error := some "db down".data }
      ∧ ∀ fid2, ∃ s'' lead,
          processInboundEmail s' "e1" fid2 .noFault =
            .ok (s'', { inboundEmail := { id := "e1", subject := "lead", rawText := sampleBody
                                          processed := true, error := none }
                        lead := some lead })
          ∧ lead.email = "john@email.com".data
          ∧ findInbound s'' "e1" =
              some { id := "e1", subject := "lead", rawText := sampleBody
                     processed := true, error := none } :=
  c4_transient_failure_retry storeFresh "e1" "L1" (Fault.failUpsert "db down".data)
    { id := "e1", subject := "lead", rawText := sampleBody, processed := false, error := none }
    { name := "John Smith".data, phone := "+15551234567".data, email := "john@email.com".data }
    "db down".data (by decide) (by decide) (by decide) (Or.inl rfl)

/-- C8: first-write-wins frame property: when a lead already exists for the
extracted email, any run of the Orchestrator on such an event leaves the
lead table — every field of every lead — entirely unchanged. -/
theorem c8_first_write_wins (s : Store) (id fid : String) (fault : Fault)
    (e : InboundEmail) (parsed : ParsedLead) (L : Lead) (s' : Store) (r : ProcessResult)
    (hL : findLeadByEmail s parsed.email = some L)
    (he : findInbound s id = some e)
    (hparse : parseLeadFromEmail e.rawText = .ok parsed)
    (hrun : processInboundEmail s id fid fault = .ok (s', r)) :
    s'.leads = s.leads := by
  by_cases hp : e.processed
  · have hshape : processInboundEmail s id fid fault =
        .ok (s, { inboundEmail := e, lead := none }) := by
      simp [processInboundEmail, he, hp]
    rw [hshape, Except.ok.injEq, Prod.mk.injEq] at hrun
    obtain ⟨rfl, -⟩ := hrun
    rfl
  · have hp' : e.processed = false := by simpa using hp
    cases fault with
    | noFault =>
      have hshape := process_success_shape s id fid e parsed he hp' hparse
      rw [hshape, Except.ok.injEq, Prod.mk.injEq] at hrun
      obtain ⟨hs, -⟩ := hrun
      rw [← hs, updateInbound_leads, leadUpsert_found s fid parsed.name parsed.phone hL]
    | failUpsert msg =>
      have hshape : processInboundEmail s id fid (.failUpsert msg) =
          .ok (updateInbound s id false (some msg),
               { inboundEmail := { e with processed := false, error := some msg }
                 lead := none }) := by
        simp [processInboundEmail, he, hp', hparse]
      rw [hshape, Except.ok.injEq, Prod.mk.injEq] at hrun
      obtain ⟨hs, -⟩ := hrun
      rw [← hs, updateInbound_leads]
    | failMark msg =>
      have hshape : processInboundEmail s id fid (.failMark msg) =
          .ok (updateInbound (leadUpsert s fid parsed.name parsed.email parsed.phone).1
                 id false (some msg),
               { inboundEmail := { e with processed := false, error := some msg }
                 lead := none }) := by
        simp [processInboundEmail, he, hp', hparse]
      rw [hshape, Except.ok.injEq, Prod.mk.injEq] at hrun
      obtain ⟨hs, -⟩ := hrun
      rw [← hs, updateInbound_leads, leadUpsert_found s fid parsed.name parsed.phone hL]

/-- C8 witness: a second submission for an existing email leaves the lead
table unchanged. -/
theorem c8_first_write_wins_witness :
    ({ inboundEmails := [{ id := "e3", subject := "lead", rawText := secondBody
                           processed := true, error := none }]
       leads := [priorLead] } : Store).leads = storeSecond.leads :=
  c8_first_write_wins storeSecond "e3" "L9" .noFault
    { id := "e3", subject := "lead", rawText := secondBody, processed := false, error := none }
    { name := "Jane Roe".data, phone := "+15551234567".data, email := "john@email.com".data }
    priorLead
    { inboundEmails := [{ id := "e3", subject := "lead", rawText := secondBody
                          processed := true, error := none }]
      leads := [priorLead] }
    { inboundEmail := { id := "e3", subject := "lead", rawText := secondBody
                        processed := true, error := none }
      lead := some priorLead }
    (by decide) (by decide) (by decide) (by decide)

/-- C6: for every text assembled from newline-free lines in which, for each
of the three labels (case-insensitively), the first line beginning with the
label is a well-formed `Label: value` line with a non-empty value, the
Extractor succeeds with exactly the trimmed captured name and email and the
normalized captured phone.  The claim's arbitrary unrelated interleaved
lines are formalized as lines not beginning with the respective label
(lines after the captured line are unrestricted). -/
theorem c6_extractor_success (lines : List (List Char)) (nv pv ev ph : List Char)
    (hln : ∀ l ∈ lines, '\n' ∉ l)
    (hn : findLabeled nameLabel lines = some nv)
    (hp : findLabeled phoneLabel lines = some pv)
    (he : findLabeled emailLabel lines = some ev)
    (hph : normalizePhone (trim pv) = .ok ph) :
    parseLeadFromEmail (joinLines lines) =
      .ok { name := trim nv, phone := ph, email := trim ev } := by
  have hsn := scan_joinLines_found (by decide) hln hn
  have hsp := scan_joinLines_found (by decide) hln hp
  have hse := scan_joinLines_found (by decide) hln he
  have hokn := @extractField_ok (joinLines lines) nameLabel nv "Name" hsn
    (findLabeled_trim_ne hn)
  have hokp := @extractField_ok (joinLines lines) phoneLabel pv "Phone" hsp
    (findLabeled_trim_ne hp)
  have hoke := @extractField_ok (joinLines lines) emailLabel ev "Email" hse
    (findLabeled_trim_ne he)
  simp only [parseLeadFromEmail, hokn, hokp, hoke, hph]

/-- C6 witness: a forwarded email with banner lines, blank lines, mixed
label casing and mixed field order parses to the expected candidate. -/
theorem c6_extractor_success_witness :
    parseLeadFromEmail (joinLines sampleLines) =
      .ok { name := "John Smith".data, phone := "+15551234567".data
            email := "john@email.com".data } :=
  c6_extractor_success sampleLines "John Smith".data "555-123-4567 ".data
    "john@email.com".data "+15551234567".data (by decide) (by decide) (by decide)
    (by decide) (by decide)

/-- C7 counterexample: in `emptyNameBody` the Name line has an empty value,
so under the claim the Extractor must fail with MissingField naming Name —
yet it succeeds: the pattern's `\s*` crosses the line break and captures
the entire next line as the name. -/
theorem c7_counterexample :
    parseLeadFromEmail emptyNameBody =
      .ok { name := "Phone: 555-123-4567".data, phone := "+15551234567".data
            email := "john@email.com".data }
    ∧ parseLeadFromEmail emptyNameBody ≠ .error (.missingField "Name") :=
  ⟨by decide, by decide⟩

/-- C7 (amended): under the pattern's actual match semantics — a field is
missing when the regex search finds no match or its capture trims to the
empty string; because `\s*` can cross line boundaries, a labeled line with
an empty value followed by non-whitespace text is not missing — the
Extractor fails with a MissingField error naming the first missing field
in the fixed order Name, Phone, Email; in particular a line-structured
text none of whose lines begins with the Name label fails with
MissingField naming Name. -/
theorem c7_first_missing_amended (body : List Char) :
    (fieldMissing nameLabel body = true →
      parseLeadFromEmail body = .error (.missingField "Name"))
    ∧ (fieldMissing nameLabel body = false → fieldMissing phoneLabel body = true →
      parseLeadFromEmail body = .error (.missingField "Phone"))
    ∧ (fieldMissing nameLabel body = false → fieldMissing phoneLabel body = false →
      fieldMissing emailLabel body = true →
      parseLeadFromEmail body = .error (.missingField "Email"))
    ∧ (∀ lines, body = joinLines lines → (∀ l ∈ lines, '\n' ∉ l) →
      (∀ l ∈ lines, startsLabelCI nameLabel l = false) →
      parseLeadFromEmail body = .error (.missingField "Name")) := by
  refine ⟨?_, ?_, ?_, ?_⟩
  · intro h1
    have hm := @extractField_missing body nameLabel "Name" h1
    simp only [parseLeadFromEmail, hm]
  · intro h1 h2
    obtain ⟨cap, -, -, hok⟩ := @extractField_found body nameLabel "Name" h1
    have hm := @extractField_missing body phoneLabel "Phone" h2
    simp only [parseLeadFromEmail, hok, hm]
  · intro h1 h2 h3
    obtain ⟨c1, -, -, hok1⟩ := @extractField_found body nameLabel "Name" h1
    obtain ⟨c2, -, -, hok2⟩ := @extractField_found body phoneLabel "Phone" h2
    have hm := @extractField_missing body emailLabel "Email" h3
    simp only [parseLeadFromEmail, hok1, hok2, hm]
  · rintro lines rfl hln hns
    have hscan : scan nameLabel (joinLines lines) = none :=
      scan_joinLines_none (by decide) hln hns
    have h1 : fieldMissing nameLabel (joinLines lines) = true := by
      unfold fieldMissing
      rw [hscan]
    have hm := @extractField_missing (joinLines lines) nameLabel "Name" h1
    simp only [parseLeadFromEmail, hm]

/-- C7 witness: the amended theorem applied to a body with no Name line. -/
theorem c7_first_missing_amended_witness :
    parseLeadFromEmail "Phone: 555-123-4567".data = .error (.missingField "Name") :=
  (c7_first_missing_amended "Phone: 555-123-4567".data).1 (by decide)

end LeadIntake
